import Mathlib

/-!
Shallow embedding of the command-tree core of the naistrix CLI library
(package `naistrix`): argument binding (`arguments.go`), argument-count
validation (`validate.go`), flag registration and configuration
reconciliation (`flag.go`), command validation and tree initialization
(`command.go`), and the application run loop (`application.go`).

Go slices of strings become `List String`; `nil`-able Go values and Go
panics become `Option` (a `none` result of an accessor models a panic);
fallible Go functions returning `error` become `Option String`
(`some msg` is the error message, the `Message` field of `naistrix.Error`)
or `Except String`.
-/

namespace Naistrix

/-! Section: string containment helper

`strOccursIn sub s` models Go's `strings.Contains(s, sub)`: `true` iff
`sub` occurs as a contiguous substring of `s`. It is used both by the
embedded code (`Command.validate` checks titles for newlines) and to
state the "error message contains ..." parts of the spec's properties. -/

/-- True iff the character list `sub` is an initial segment of `l`. -/
def leadsWith : List Char → List Char → Bool
  | [], _ => true
  | _ :: _, [] => false
  | a :: as, b :: bs => a = b && leadsWith as bs

/-- True iff the character list `sub` occurs contiguously inside `l`. -/
def occursIn (sub : List Char) : List Char → Bool
  | [] => sub.isEmpty
  | c :: rest => leadsWith sub (c :: rest) || occursIn sub rest

/-- Go `strings.Contains(s, sub)`. -/
def strOccursIn (sub s : String) : Bool :=
  occursIn sub.toList s.toList

/-- Go `strings.TrimSpace(s)`: the string without leading and trailing
whitespace. -/
def trimSpace (s : String) : String :=
  ⟨((s.toList.dropWhile Char.isWhitespace).reverse.dropWhile Char.isWhitespace).reverse⟩

/-- Go `strings.Join(parts, " ")`, the shape of cobra's `CommandPath()`. -/
def joinSpace : List String → String
  | [] => ""
  | [x] => x
  | x :: y :: rest => x ++ " " ++ joinSpace (y :: rest)

/-- The loop of Go `strings.Split(s, " ")` over the characters of `s`,
with the characters of the current field accumulated in reverse. -/
def splitSpaceAux : List Char → List Char → List String
  | [], acc => [⟨acc.reverse⟩]
  | c :: rest, acc =>
      if c = ' ' then ⟨acc.reverse⟩ :: splitSpaceAux rest []
      else splitSpaceAux rest (c :: acc)

/-- Go `strings.Split(s, " ")`. -/
def splitSpace (s : String) : List String :=
  splitSpaceAux s.toList []

theorem leadsWith_append (as bs : List Char) : leadsWith as (as ++ bs) = true := by
  induction as with
  | nil => rfl
  | cons a as ih => simp [leadsWith, ih]

/-- A string that starts with `sub` contains `sub`. -/
theorem occursIn_append (sub rest : List Char) : occursIn sub (sub ++ rest) = true := by
  cases sub with
  | nil => cases rest <;> simp [occursIn, leadsWith, List.isEmpty]
  | cons c cs =>
      have h := leadsWith_append (c :: cs) rest
      simp only [occursIn, List.cons_append, Bool.or_eq_true]
      exact Or.inl h

/-! Section: `arguments.go` — the Argument Binder -/

/-- Embeds `naistrix.Argument`: a positional argument specification. -/
structure Argument where
  name : String
  repeatable : Bool
deriving DecidableEq, Repr

/-- The dynamic value stored in an `input` (`value any` in Go): either a
single string (`userArgs[i]`) or a string slice (`userArgs[i:]`). -/
inductive ArgValue where
  | scalar (s : String)
  | multi (l : List String)
deriving DecidableEq, Repr

/-- Go type assertion `value.(string)`; `none` models the panic on a
wrong-kind assertion. -/
def ArgValue.castString : ArgValue → Option String
  | .scalar s => some s
  | .multi _ => none

/-- Go type assertion `value.([]string)`; `none` models the panic. -/
def ArgValue.castStringSlice : ArgValue → Option (List String)
  | .multi l => some l
  | .scalar _ => none

/-- Embeds `naistrix.input`: one bound argument. -/
structure Input where
  name : String
  repeatable : Bool
  value : ArgValue
deriving DecidableEq, Repr

/-- Embeds `naistrix.Arguments`: the Bound Argument Set. -/
structure Arguments where
  args : List Input
deriving DecidableEq, Repr

/-- The loop body of `newArguments`: for each spec at index `i`, stop
(`break`) once `i >= len(userArgs)`; otherwise bind `userArgs[i:]` for a
repeatable spec and `userArgs[i]` otherwise. One spec and one token are
consumed per iteration, so the remaining token list at step `i` is
exactly `userArgs[i:]`. -/
def newArgumentsList : List Argument → List String → List Input
  | [], _ => []
  | _ :: _, [] => []
  | spec :: specs, tok :: toks =>
      { name := spec.name
        repeatable := spec.repeatable
        value := if spec.repeatable then .multi (tok :: toks) else .scalar tok } ::
        newArgumentsList specs toks

/-- Embeds `naistrix.newArguments`. -/
def newArguments (commandArgs : List Argument) (userArgs : List String) : Arguments :=
  { args := newArgumentsList commandArgs userArgs }

/-- Embeds `Arguments.Len`. -/
def Arguments.Len (a : Arguments) : Nat :=
  a.args.length

/-- The loop of `Arguments.All`, with the accumulator `ret`: on a
repeatable entry it returns `ret` plus that entry's slice immediately
(the Go `return append(ret, ...)`); otherwise it appends the scalar and
continues. `none` models the panic of a failing type assertion. -/
def allList : List Input → List String → Option (List String)
  | [], ret => some ret
  | a :: rest, ret =>
      if a.repeatable then
        (a.value.castStringSlice).map (fun l => ret ++ l)
      else
        (a.value.castString).bind (fun s => allList rest (ret ++ [s]))

/-- Embeds `Arguments.All`. -/
def Arguments.All (a : Arguments) : Option (List String) :=
  allList a.args []

/-- The loop of `Arguments.Get`: the first bound entry with the given
name that is not repeatable; reaching the end of the list models the
`"%s" is not a valid argument` panic. -/
def getList (name : String) : List Input → Option String
  | [] => none
  | arg :: rest =>
      if arg.name = name && !arg.repeatable then arg.value.castString
      else getList name rest

/-- The loop of `Arguments.GetRepeatable`: the first bound entry with the
given name that is repeatable; reaching the end of the list models the
`"%s" is not a valid repeatable argument` panic. -/
def getRepeatableList (name : String) : List Input → Option (List String)
  | [] => none
  | arg :: rest =>
      if arg.name = name && arg.repeatable then arg.value.castStringSlice
      else getRepeatableList name rest

/-- Embeds `Arguments.Get`; a `none` result models the panic (unknown name, repeatable
slot, or failing type assertion). -/
def Arguments.Get (a : Arguments) (name : String) : Option String :=
  getList name a.args

/-- Embeds `Arguments.GetRepeatable`; a `none` result models the panic. -/
def Arguments.GetRepeatable (a : Arguments) (name : String) : Option (List String) :=
  getRepeatableList name a.args

/-! Section: `validate.go` — built-in argument-count checks

A `ValidateFunc` takes the end-user's positional tokens and returns an
error or `nil`; the embedding returns `Option String` holding the
`Message` of the `naistrix.Error` built by `Errorf`. -/

/-- Embeds `naistrix.ValidateExactArgs(n)` applied to the user's tokens. -/
def ValidateExactArgs (n : Nat) (args : List String) : Option String :=
  if args.length ≠ n then
    some ("Expected exactly " ++ toString n ++ " arguments, got " ++ toString args.length)
  else
    none

/-- Embeds `naistrix.ValidateMinArgs(n)` applied to the user's tokens. -/
def ValidateMinArgs (n : Nat) (args : List String) : Option String :=
  if args.length < n then
    some ("Expected at least " ++ toString n ++ " arguments, got " ++ toString args.length)
  else
    none

/-- The selection made by `Command.validateArgs` (`command.go`): with
`numArgs` declared specifications, prepend `ValidateMinArgs(numArgs)`
when one of them is repeatable, `ValidateExactArgs(numArgs)` when there
is at least one and none is repeatable, and no check at all otherwise.
(`hasRepeatable` is set inside the loop iff some spec is repeatable.) -/
def countValidator (specs : List Argument) : Option (List String → Option String) :=
  let numArgs := specs.length
  if numArgs > 0 && specs.any (·.repeatable) then
    some (ValidateMinArgs numArgs)
  else if numArgs > 0 then
    some (ValidateExactArgs numArgs)
  else
    none

/-! Section: `flag.go` — Flag Registry (`setupFlag`) -/

/-- The dynamic type of the pointer handed to `setupFlag` after
`unwrap`: one constructor per supported case of the Go type switch
(`*string`, `*bool`, `*uint`, `*[]string`, `*int`, `*time.Duration`,
`*naistrix.Count`), plus `other` for every other type (the `default`
branch); `other` carries the `%T`-rendered type name used in the error
message. -/
inductive FlagValue where
  | str (v : String)
  | boolean (v : Bool)
  | uintV (v : Nat)
  | strSlice (v : List String)
  | intV (v : Int)
  | durationV (v : Int)
  | countV (v : Int)
  | other (typeName : String)
deriving DecidableEq, Repr

/-- Returns `true` for the seven kinds the type switch registers. -/
def FlagValue.supported : FlagValue → Bool
  | .other _ => false
  | _ => true

/-- A pflag `FlagSet` scope, reduced to the data `setupFlag` consults and
extends: the names already registered (`flags.Lookup(name)` is a lookup
by flag name). -/
abbrev FlagSet := List String

/-- Embeds `naistrix.setupFlag`: reject a multi-byte short form (`len(short)` in
Go counts bytes), then a duplicate name on the same scope, then an
unsupported kind; otherwise register the flag on the scope. -/
def setupFlag (name short : String) (value : FlagValue) (flags : FlagSet) :
    Except String FlagSet :=
  if 1 < short.utf8ByteSize then
    .error "short flag must be a single character"
  else if flags.contains name then
    .error ("duplicate flag name: \"" ++ name ++ "\"")
  else
    match value with
    | .other t => .error ("unknown flag type: " ++ t)
    | _ => .ok (flags ++ [name])

/-! Section: `flag.go` — Configuration Merger (`syncViperToFlags`)

`syncViperToFlags` runs in the root command's `PersistentPreRunE`, after
`initializeConfig` has read the configuration file and bound the parsed
pflag set into Viper (`BindPFlags`), and before any command body runs.
The Viper/pflag layer is third-party code that is not part of this
repository; its lookup behaviour is modelled here, per flag, from its
documented precedence: an explicitly changed command-line flag beats the
environment variable, which beats the configuration-file value, which
beats the flag's compiled-in default, and `IsSet` reports whether any
source other than the flag default provides the key. -/

/-- One registered flag together with its three external value sources
and its compiled-in default. `none` means the source does not provide
the key (flag not given on the command line / env variable unset / key
absent from the configuration file). -/
structure Flag where
  name : String
  defVal : String
  cliVal : Option String
  envVal : Option String
  fileVal : Option String
deriving DecidableEq, Repr

/-- The struct field after cobra/pflag parsing and before
`syncViperToFlags`: the explicit command-line value if the flag was
given, otherwise the compiled-in default. -/
def pflagValue (f : Flag) : String :=
  f.cliVal.getD f.defVal

/-- Models `config.IsSet(flagName)` after `BindPFlags` + `AutomaticEnv` +
`ReadInConfig`: true iff a changed flag, the environment, or the file
provides the key (a bound flag's mere default does not count). -/
def viperIsSet (f : Flag) : Bool :=
  f.cliVal.isSome || f.envVal.isSome || f.fileVal.isSome

/-- Models `config.GetString(configKey)` under the same setup: changed flag >
environment > configuration file > bound-flag default. -/
def viperGetString (f : Flag) : String :=
  f.cliVal.getD (f.envVal.getD (f.fileVal.getD f.defVal))

/-- A flag together with the current value of the bound struct field. -/
structure BoundFlag where
  flag : Flag
  fieldValue : String
deriving DecidableEq, Repr

/-- The per-field body of `naistrix.syncViperToFlags` (shown for the
`reflect.String` case of `setValue`; the other kinds differ only in the
`config.Get*` conversion used): fields whose flag name Viper does not
consider set are skipped, every other field is overwritten with the
Viper-resolved value. -/
def syncViperToFlags (fields : List BoundFlag) : List BoundFlag :=
  fields.map (fun b =>
    if viperIsSet b.flag then { b with fieldValue := viperGetString b.flag } else b)

/-- The whole reconciliation pipeline for a flags struct: pflag parsing
binds each field, then `syncViperToFlags` runs. -/
def reconcileFlags (flags : List Flag) : List BoundFlag :=
  syncViperToFlags (flags.map (fun f => ⟨f, pflagValue f⟩))

/-- Modelled from the spec: "reconcile three value sources for every
registered flag in ascending precedence: compiled-in default < persisted
configuration file value < environment variable < explicit command-line
flag" — the value each bound field must hold after reconciliation. -/
def specResolvedValue (f : Flag) : String :=
  match f.cliVal with
  | some v => v
  | none =>
      match f.envVal with
      | some e => e
      | none =>
          match f.fileVal with
          | some c => c
          | none => f.defVal

/-! Section: `deprecated.go` — deprecation signal -/

/-- Embeds `naistrix.DeprecatedCommandError`: the structured deprecation signal,
carrying the replacement tokens and whether the user opted into running
the replacement automatically. -/
structure DeprecatedCommandError where
  replacement : List String
  executeReplacement : Bool
deriving DecidableEq, Repr

/-! Section: `command.go` — Command Node

`Command` keeps the fields the verified claims exercise: name, aliases,
title, argument specifications, the body (`RunFunc`, present or `nil`),
the optional deprecation marker (static replacement list plus the
execute choice, the `DeprecatedWithReplacement` shape), and
sub-commands. `Description`, `Group`, `Examples`, flags and
auto-completion are orthogonal to the claims and omitted. A body is
modelled as a function from the positional tokens to an optional error
message. -/

inductive Command where
  | mk (name : String) (aliases : List String) (title : String)
       (argSpecs : List Argument)
       (runFunc : Option (List String → Option String))
       (deprecated : Option DeprecatedCommandError)
       (subs : List Command)

def Command.name : Command → String
  | .mk n _ _ _ _ _ _ => n

def Command.aliases : Command → List String
  | .mk _ a _ _ _ _ _ => a

def Command.title : Command → String
  | .mk _ _ t _ _ _ _ => t

def Command.argSpecs : Command → List Argument
  | .mk _ _ _ s _ _ _ => s

def Command.runFunc : Command → Option (List String → Option String)
  | .mk _ _ _ _ r _ _ => r

def Command.deprecated : Command → Option DeprecatedCommandError
  | .mk _ _ _ _ _ d _ => d

def Command.subs : Command → List Command
  | .mk _ _ _ _ _ _ s => s

/-- Go `%+v` rendering of an `Argument`, as used in the `validateArgs`
error messages. -/
def Argument.goFormat (a : Argument) : String :=
  "\x7bName:" ++ a.name ++ " Repeatable:" ++ (if a.repeatable then "true" else "false") ++ "\x7d"

/-- The loop of `Command.validateArgs` over the declared specifications
(`n` is the total number of specs, `i` the current index): an empty name
is rejected, and a repeatable spec that is not in the last position is
rejected. -/
def validateArgsAux (n : Nat) : List Argument → Nat → Option String
  | [], _ => none
  | a :: rest, i =>
      if a.name = "" then
        some ("argument name (" ++ a.goFormat ++ ") cannot be empty")
      else if a.repeatable && i + 1 ≠ n then
        some ("a repeatable argument (" ++ a.goFormat ++ ") must be the last argument for the command")
      else
        validateArgsAux n rest (i + 1)

/-- The error-detecting part of `Command.validateArgs` (the part that can
fail; the `ValidateFunc` it installs on success is `countValidator`). -/
def validateArgsList (specs : List Argument) : Option String :=
  validateArgsAux specs.length specs 0

/-- Embeds `naistrix.Command.validate`: name, title, RunFunc/SubCommands mutual
exclusivity, then the argument specifications. -/
def Command.validate (c : Command) : Option String :=
  if trimSpace c.name = "" then
    some "command name cannot be empty"
  else if strOccursIn " " c.name then
    some ("command name \"" ++ c.name ++ "\" contain spaces")
  else if trimSpace c.title = "" then
    some ("command \"" ++ c.name ++ "\" is missing a title")
  else if strOccursIn "\n" (trimSpace c.title) then
    some ("title for command \"" ++ c.name ++ "\" contains newline")
  else if (c.runFunc.isNone && c.subs.isEmpty) || (c.runFunc.isSome && !c.subs.isEmpty) then
    some ("either RunFunc or SubCommands must be set for command: " ++ c.name)
  else
    validateArgsList c.argSpecs

/-- Embeds `naistrix.duplicate` (`application.go`): the first value that was
already seen, or `""`. -/
def duplicateGo : List String → List String → String
  | [], _ => ""
  | v :: vs, seen => if seen.contains v then v else duplicateGo vs (v :: seen)

/-- The `c.Name, c.Aliases...` tokens one command contributes to a
duplicate scan. -/
def Command.namesAndAliases (c : Command) : List String :=
  c.name :: c.aliases

/-- Embeds `naistrix.Command.init`, reduced to its failure behaviour: validate
the node, recurse into the sub-commands (first error wins, as in the Go
loop), then scan the direct children's names and aliases for a
duplicate, reporting it together with the owning command path. The
`fuel` argument only bounds the recursion depth for termination; every
run in this file uses a fuel larger than the tree depth. (Usage-template
setup, `Examples` rendering and flag setup are omitted; they cannot
produce the errors the claims are about.) -/
def Command.initGo : Nat → String → Command → Option String
  | 0, _, _ => some "init recursion limit reached"
  | fuel + 1, cmd, c =>
      match c.validate with
      | some e => some e
      | none =>
          let cmdPath := cmd ++ " " ++ c.name
          match c.subs.findSome? (fun sub => Command.initGo fuel cmdPath sub) with
          | some e => some e
          | none =>
              let d := duplicateGo (c.subs.flatMap Command.namesAndAliases) []
              if d ≠ "" then
                some ("command \"" ++ cmdPath ++ "\" contains duplicate commands and/or aliases: \"" ++ d ++ "\"")
              else
                none

/-! Section: `application.go` — Application Tree -/

/-- Embeds `naistrix.Application`, reduced to the state the claims exercise: the
application name and the commands registered so far. -/
structure App where
  name : String
  commands : List Command

/-- Embeds `naistrix.Application.AddCommand`: append all passed commands to the
registered list, initialize each (first error aborts, wrapped as
`failed to initialize command %q: %w`), then scan only the names and
aliases of the commands passed to *this* call for duplicates. Returns
the new registered list and the error, if any. -/
def AddCommand (appName : String) (fuel : Nat) (registered : List Command)
    (all : List Command) : List Command × Option String :=
  let registered' := registered ++ all
  match all.findSome? (fun c =>
      (Command.initGo fuel appName c).map
        (fun e => "failed to initialize command \"" ++ c.name ++ "\": " ++ e)) with
  | some e => (registered', some e)
  | none =>
      let d := duplicateGo (all.flatMap Command.namesAndAliases) []
      if d ≠ "" then
        (registered', some ("the application contains duplicate commands and/or aliases: \"" ++ d ++ "\""))
      else
        (registered', none)

/-! Section: resolution and execution

cobra (the third-party parser `Application.Run` delegates to) is not
part of this repository; its command resolution is modelled here: walk
the tree consuming one token per step, descending into the child whose
name or alias matches, and stop at the first token that matches no
child. The command returned by `ExecuteContextC` — stored in
`a.executedCommand` — is the deepest matched node, whether or not its
execution then fails. -/

/-- The error outcome of one execution: either the structured
deprecation signal or any other error, reduced to its message. -/
inductive RunError where
  | deprecation (e : DeprecatedCommandError)
  | other (msg : String)
deriving DecidableEq, Repr

/-- cobra `Command.Find`: follow child name/alias matches token by
token. Returns the resolved command, its path (application name
included, as in `CommandPath()`), and the unconsumed tokens. -/
def walk : Command → List String → List String → Command × List String × List String
  | c, path, [] => (c, path, [])
  | c, path, tok :: rest =>
      match c.subs.find? (fun s => s.name = tok || s.aliases.contains tok) with
      | some child => walk child (path ++ [child.name]) rest
      | none => (c, path, tok :: rest)

/-- The error built by `Command.cobraRun` when a command without a
`RunFunc` is invoked with a leftover token: `cobra.NoArgs`'s
`unknown command %q for %q` wrapped in the usage/help template, listing
the available sub-commands. -/
def hijackUnknownMsg (c : Command) (path : List String) (tok : String) : String :=
  let cmdPath := joinSpace path
  let noArgs := "unknown command \"" ++ tok ++ "\" for \"" ++ cmdPath ++ "\""
  let subList := trimSpace ("Available commands:\n" ++
    String.join (c.subs.map (fun s => "  " ++ s.name ++ "\n")))
  noArgs ++ "\n\nUsage:\n  " ++ cmdPath ++ " <command> [flags]\n\n" ++ subList ++
    "\n\nUse \"" ++ cmdPath ++ " -h\" for more information."

/-- One pass of `rootCommand.ExecuteContextC` over an initialized tree:
resolve the deepest matching command, then run the per-command pipeline.
At the root itself, a leftover token is rejected by cobra's `legacyArgs`
and no token at all shows the help screen. For a resolved command the
pipeline is the one `Command.init` installs: the argument-count
`ValidateFunc` first, then — modelled from the spec (§4.5, the dispatch
of the missing deprecation wiring): "a deprecated command's body is
never executed directly; instead, invocation raises a structured
deprecation signal" — the deprecation signal, then the body; a command
without a body runs the `cobraRun` unknown-command/help hijack. Returns
the executed command's path and the error, if any. -/
def dispatch (appName : String) (cmds : List Command) (args : List String) :
    List String × Option RunError :=
  let root : Command := .mk appName [] "" [] none none cmds
  match walk root [appName] args with
  | (c, path, rest) =>
      if path.length = 1 then
        match rest with
        | [] => (path, none)
        | tok :: _ =>
            (path, some (.other ("unknown command \"" ++ tok ++ "\" for \"" ++ appName ++ "\"")))
      else
        match (countValidator c.argSpecs).bind (fun chk => chk rest) with
        | some m => (path, some (.other m))
        | none =>
            match c.deprecated with
            | some d => (path, some (.deprecation d))
            | none =>
                match c.runFunc with
                | some body => (path, (body rest).map RunError.other)
                | none =>
                    match rest with
                    | [] => (path, none)
                    | tok :: _ => (path, some (.other (hijackUnknownMsg c path tok)))

/-- Embeds `naistrix.Application.Run`: execute, return on success or on any
non-deprecation error; on a deprecation signal with a non-empty
replacement and the execute choice set, substitute the replacement
tokens for argv and loop; otherwise prepend the application name to the
replacement for the user-facing message and return. The pair is
(`ExecutedCommand()` path of the last iteration, returned error). The
`fuel` argument bounds the (in Go unbounded) retry loop; at zero fuel
the current iteration's outcome is returned as is. -/
def App.runGo (app : App) : Nat → List String → List String × Option RunError
  | 0, args => dispatch app.name app.commands args
  | fuel + 1, args =>
      match dispatch app.name app.commands args with
      | (path, none) => (path, none)
      | (path, some (.deprecation d)) =>
          if !d.replacement.isEmpty && d.executeReplacement then
            App.runGo app fuel d.replacement
          else
            (path, some (.deprecation ⟨app.name :: d.replacement, d.executeReplacement⟩))
      | (path, some (.other m)) => (path, some (.other m))

/-- Embeds `Application.ExecutedCommand`: `CommandPath()` split on `" "`. -/
def ExecutedCommand (path : List String) : List String :=
  splitSpace (joinSpace path)

/-! Section: concrete fixtures used by the scenario theorems and witnesses -/

/-- Leaf `sub2` of the unknown-command scenario. -/
def sub2C7 : Command := .mk "sub2" [] "Sub Command 2" [] (some (fun _ => none)) none []

/-- Branch `sub1` of the unknown-command scenario. -/
def sub1C7 : Command := .mk "sub1" [] "Sub Command 1" [] none none [sub2C7]

/-- Branch `cmd` of the unknown-command scenario. -/
def cmdC7 : Command := .mk "cmd" [] "Command" [] none none [sub1C7]

/-- Application `app` of the unknown-command scenario. -/
def appC7 : App := ⟨"app", [cmdC7]⟩

/-- Replacement command `v2` of the deprecation scenario, taking one
argument. -/
def v2C4 : Command := .mk "v2" [] "The v2 command" [⟨"arg0", false⟩] (some (fun _ => none)) none []

/-- Deprecated command `v1`, redirecting to `v2 arg` with automatic
execution. -/
def v1C4 : Command := .mk "v1" [] "The v1 command" [] none (some ⟨["v2", "arg"], true⟩) []

/-- Application of the deprecation scenario. -/
def appC4 : App := ⟨"app", [v1C4, v2C4]⟩

/-- First of two top-level commands named `create`. -/
def createA : Command := .mk "create" [] "Create something" [] (some (fun _ => none)) none []

/-- Second of two top-level commands named `create`. -/
def createB : Command := .mk "create" [] "Create something different" [] (some (fun _ => none)) none []

/-- Command `create`, aliased `c`. -/
def aliasedA : Command := .mk "create" ["c"] "Create something" [] (some (fun _ => none)) none []

/-- Command `count`, also aliased `c`. -/
def aliasedB : Command := .mk "count" ["c"] "Count something" [] (some (fun _ => none)) none []

/-- A command simply named `c`. -/
def namedC : Command := .mk "c" [] "The c command" [] (some (fun _ => none)) none []

/-- Child `car` of the sub-command duplicate scenario, aliased `c`. -/
def carC5 : Command := .mk "car" ["c"] "Create a car" [] (some (fun _ => none)) none []

/-- Child `cat` of the sub-command duplicate scenario, also aliased `c`. -/
def catC5 : Command := .mk "cat" ["c"] "Create a cat" [] (some (fun _ => none)) none []

/-- Parent of the sub-command duplicate scenario. -/
def parentC5 : Command := .mk "create" [] "Create something" [] none none [carC5, catC5]

/-- A command declaring both a body and a sub-command. -/
def bothC6 : Command := .mk "both" [] "Has both" [] (some (fun _ => none)) none [sub2C7]

/-- A command declaring neither a body nor sub-commands. -/
def neitherC6 : Command := .mk "neither" [] "Has neither" [] none none []

/-! Section: lemmas about the Argument Binder -/

theorem strOccursIn_append_self (sub rest : String) :
    strOccursIn sub (sub ++ rest) = true := by
  have h : (sub ++ rest).toList = sub.toList ++ rest.toList := String.data_append sub rest
  rw [strOccursIn, h]
  exact occursIn_append sub.toList rest.toList

/-- Binding via `newArguments` produces one entry per specification until either list
runs out. -/
theorem newArgumentsList_length (specs : List Argument) (toks : List String) :
    (newArgumentsList specs toks).length = min specs.length toks.length := by
  induction specs generalizing toks with
  | nil => simp [newArgumentsList]
  | cons s ss ih =>
      cases toks with
      | nil => simp [newArgumentsList]
      | cons t ts => simp [newArgumentsList, ih ts, Nat.succ_min_succ]

/-- Entries produced by `newArguments` hold a value of the cardinality
their `repeatable` flag announces, so the type assertions in `All`,
`Get` and `GetRepeatable` cannot fail on them. -/
theorem newArgumentsList_value_inv (specs : List Argument) (toks : List String) :
    ∀ a ∈ newArgumentsList specs toks,
      (a.repeatable = false → ∃ s, a.value = ArgValue.scalar s) ∧
      (a.repeatable = true → ∃ l, a.value = ArgValue.multi l) := by
  induction specs generalizing toks with
  | nil => simp [newArgumentsList]
  | cons s ss ih =>
      cases toks with
      | nil => simp [newArgumentsList]
      | cons t ts =>
          intro a ha
          rcases List.mem_cons.mp ha with h | h
          · subst h
            cases hr : s.repeatable <;> simp [hr]
          · exact ih ts a h

/-- Evaluates `All` on a binding whose specifications are all non-repeatable: the
first `specs.length` tokens, in order. -/
theorem allList_nonrep (specs : List Argument)
    (h : ∀ a ∈ specs, a.repeatable = false) (toks : List String) (acc : List String) :
    allList (newArgumentsList specs toks) acc = some (acc ++ toks.take specs.length) := by
  induction specs generalizing toks acc with
  | nil => simp [newArgumentsList, allList]
  | cons s ss ih =>
      cases toks with
      | nil => simp [newArgumentsList, allList]
      | cons t ts =>
          have hs : s.repeatable = false := h s (List.mem_cons_self s ss)
          have hss : ∀ a ∈ ss, a.repeatable = false := fun a ha => h a (List.mem_cons_of_mem s ha)
          simp [newArgumentsList, hs, allList, ArgValue.castString,
            ih hss ts (acc ++ [t]), List.take_succ_cons]

/-- Evaluates `All` on a binding whose last specification is repeatable and whose
earlier specifications are non-repeatable, given at least
`specs.length - 1` tokens: all tokens, in order. -/
theorem allList_rep (specs : List Argument)
    (h1 : ∀ a ∈ specs.dropLast, a.repeatable = false)
    (h2 : (specs.getLast?.map Argument.repeatable).getD false = true)
    (toks : List String) (acc : List String)
    (h3 : specs.length ≤ toks.length + 1) :
    allList (newArgumentsList specs toks) acc = some (acc ++ toks) := by
  induction specs generalizing toks acc with
  | nil => simp at h2
  | cons s ss ih =>
      cases ss with
      | nil =>
          have hs : s.repeatable = true := by simpa using h2
          cases toks with
          | nil => simp [newArgumentsList, allList]
          | cons t ts =>
              simp [newArgumentsList, hs, allList, ArgValue.castStringSlice]
      | cons s2 ss2 =>
          have hs : s.repeatable = false := by
            apply h1
            simp [List.dropLast_cons₂]
          have h1' : ∀ a ∈ (s2 :: ss2).dropLast, a.repeatable = false := by
            intro a ha
            apply h1
            simp [List.dropLast_cons₂, ha]
          have h2' : ((s2 :: ss2).getLast?.map Argument.repeatable).getD false = true := by
            rwa [List.getLast?_cons_cons] at h2
          cases toks with
          | nil => simp at h3
          | cons t ts =>
              have h3' : (s2 :: ss2).length ≤ ts.length + 1 := by
                simpa using Nat.le_of_succ_le_succ (by simpa using h3)
              simp [newArgumentsList, hs, allList, ArgValue.castString,
                ih h1' h2' ts (acc ++ [t]) h3']

/-- If the trailing specification is not repeatable and the earlier ones
are not either, no specification is repeatable. -/
theorem nonrep_of_dropLast (specs : List Argument)
    (h1 : ∀ a ∈ specs.dropLast, a.repeatable = false)
    (h2 : (specs.getLast?.map Argument.repeatable).getD false = false) :
    ∀ a ∈ specs, a.repeatable = false := by
  induction specs with
  | nil => simp
  | cons s ss ih =>
      cases ss with
      | nil =>
          intro a ha
          rcases List.mem_cons.mp ha with h | h
          · subst h; simpa using h2
          · simp at h
      | cons s2 ss2 =>
          intro a ha
          rcases List.mem_cons.mp ha with h | h
          · subst h
            apply h1
            simp [List.dropLast_cons₂]
          · refine ih ?_ ?_ a h
            · intro b hb
              apply h1
              simp [List.dropLast_cons₂, hb]
            · rwa [List.getLast?_cons_cons] at h2

/-- A specification list whose last element is repeatable has a
repeatable element. -/
theorem any_rep_of_last (specs : List Argument)
    (h : (specs.getLast?.map Argument.repeatable).getD false = true) :
    specs.any (·.repeatable) = true := by
  induction specs with
  | nil => simp at h
  | cons s ss ih =>
      cases ss with
      | nil => simpa using h
      | cons s2 ss2 =>
          rw [List.getLast?_cons_cons] at h
          simp [ih h]

/-- With all but possibly the last specification non-repeatable, the
number of non-repeatable specifications is at least `specs.length - 1`. -/
theorem filter_nonrep_length (specs : List Argument)
    (h1 : ∀ a ∈ specs.dropLast, a.repeatable = false) :
    specs.length ≤ (specs.filter (fun a => a.repeatable = false)).length + 1 := by
  induction specs with
  | nil => simp
  | cons s ss ih =>
      cases ss with
      | nil => simp
      | cons s2 ss2 =>
          have hs : s.repeatable = false := by
            apply h1
            simp [List.dropLast_cons₂]
          have ih' := ih (by intro a ha; apply h1; simp [List.dropLast_cons₂, ha])
          rw [List.filter_cons_of_pos (by simp [hs])]
          simp only [List.length_cons] at ih' ⊢
          omega

/-- On well-formed entries, `Get` returns normally exactly when some bound entry matches the
name with non-repeatable cardinality (given entries whose values match
their flags, as `newArguments` produces). -/
theorem getList_none_iff (n : String) (l : List Input)
    (hinv : ∀ a ∈ l, a.repeatable = false → ∃ s, a.value = ArgValue.scalar s) :
    (getList n l = none ↔ ∀ a ∈ l, ¬(a.name = n ∧ a.repeatable = false)) := by
  induction l with
  | nil => simp [getList]
  | cons a rest ih =>
      have ih' := ih (fun b hb => hinv b (List.mem_cons_of_mem a hb))
      by_cases hc : a.name = n ∧ a.repeatable = false
      · obtain ⟨s, hs⟩ := hinv a (List.mem_cons_self a rest) hc.2
        simp [getList, hc.1, hc.2, hs, ArgValue.castString]
      · have hcond : (a.name = n && !a.repeatable) = false := by
          by_cases h1 : a.name = n
          · have h2 : a.repeatable = true := by
              cases h : a.repeatable
              · exact absurd ⟨h1, h⟩ hc
              · rfl
            simp [h1, h2]
          · simp [h1]
        simp only [getList, hcond, Bool.false_eq_true, if_false, ih', List.mem_cons]
        constructor
        · intro h b hb
          rcases hb with hb | hb
          · subst hb; exact hc
          · exact h b hb
        · intro h b hb
          exact h b (Or.inr hb)

/-- If `Get` returns a value, some bound non-repeatable entry with that
name holds it. -/
theorem getList_some (n : String) (l : List Input) (s : String)
    (h : getList n l = some s) :
    ∃ a, a ∈ l ∧ a.name = n ∧ a.repeatable = false ∧ a.value = ArgValue.scalar s := by
  induction l with
  | nil => simp [getList] at h
  | cons a rest ih =>
      by_cases hc : (a.name = n && !a.repeatable) = true
      · simp only [getList, hc, if_true] at h
        have hval : a.name = n ∧ a.repeatable = false := by simpa using hc
        have hname' : a.name = n := hval.1
        have hrep : a.repeatable = false := hval.2
        cases hv : a.value with
        | scalar s' =>
            rw [hv] at h
            simp [ArgValue.castString] at h
            exact ⟨a, List.mem_cons_self a rest, hname', hrep, by rw [hv, h]⟩
        | multi l' =>
            rw [hv] at h
            simp [ArgValue.castString] at h
      · simp only [getList, hc, Bool.false_eq_true, if_false] at h
        obtain ⟨b, hb, hrest⟩ := ih h
        exact ⟨b, List.mem_cons_of_mem a hb, hrest⟩

/-- On well-formed entries, `GetRepeatable` returns normally exactly when some bound entry
matches the name with repeatable cardinality. -/
theorem getRepeatableList_none_iff (n : String) (l : List Input)
    (hinv : ∀ a ∈ l, a.repeatable = true → ∃ s, a.value = ArgValue.multi s) :
    (getRepeatableList n l = none ↔ ∀ a ∈ l, ¬(a.name = n ∧ a.repeatable = true)) := by
  induction l with
  | nil => simp [getRepeatableList]
  | cons a rest ih =>
      have ih' := ih (fun b hb => hinv b (List.mem_cons_of_mem a hb))
      by_cases hc : a.name = n ∧ a.repeatable = true
      · obtain ⟨s, hs⟩ := hinv a (List.mem_cons_self a rest) hc.2
        simp [getRepeatableList, hc.1, hc.2, hs, ArgValue.castStringSlice]
      · have hcond : (a.name = n && a.repeatable) = false := by
          by_cases h1 : a.name = n
          · have h2 : a.repeatable = false := by
              cases h : a.repeatable
              · rfl
              · exact absurd ⟨h1, h⟩ hc
            simp [h1, h2]
          · simp [h1]
        simp only [getRepeatableList, hcond, Bool.false_eq_true, if_false, ih', List.mem_cons]
        constructor
        · intro h b hb
          rcases hb with hb | hb
          · subst hb; exact hc
          · exact h b hb
        · intro h b hb
          exact h b (Or.inr hb)

/-- If `GetRepeatable` returns a value, some bound repeatable entry with
that name holds it. -/
theorem getRepeatableList_some (n : String) (l : List Input) (s : List String)
    (h : getRepeatableList n l = some s) :
    ∃ a, a ∈ l ∧ a.name = n ∧ a.repeatable = true ∧ a.value = ArgValue.multi s := by
  induction l with
  | nil => simp [getRepeatableList] at h
  | cons a rest ih =>
      by_cases hc : (a.name = n && a.repeatable) = true
      · simp only [getRepeatableList, hc, if_true] at h
        have hval : a.name = n ∧ a.repeatable = true := by simpa using hc
        have hname : a.name = n := hval.1
        have hrep : a.repeatable = true := hval.2
        cases hv : a.value with
        | multi l' =>
            rw [hv] at h
            simp [ArgValue.castStringSlice] at h
            exact ⟨a, List.mem_cons_self a rest, hname, hrep, by rw [hv, h]⟩
        | scalar s' =>
            rw [hv] at h
            simp [ArgValue.castStringSlice] at h
      · simp only [getRepeatableList, hc, Bool.false_eq_true, if_false] at h
        obtain ⟨b, hb, hrest⟩ := ih h
        exact ⟨b, List.mem_cons_of_mem a hb, hrest⟩

/-- The per-field reconciliation result equals the spec-side precedence
resolution. -/
theorem reconcile_field (f : Flag) :
    (if viperIsSet f then viperGetString f else pflagValue f) = specResolvedValue f := by
  obtain ⟨n, d, c, e, fi⟩ := f
  cases c <;> cases e <;> cases fi <;>
    simp [viperIsSet, viperGetString, pflagValue, specResolvedValue]

/-! Section: the claims -/

/-- Claim C1: for every flag registered through the Flag Registry, after
configuration reconciliation runs (pflag parsing followed by
`syncViperToFlags`, before any command body executes) the bound struct
field holds the explicit command-line value when one was given,
otherwise the environment-variable value when set, otherwise the
persisted configuration-file value when present, otherwise the
compiled-in default — precedence compiled default < config file <
environment < explicit flag. -/
theorem flag_precedence_reconciliation (flags : List Flag) :
    (reconcileFlags flags).map BoundFlag.fieldValue = flags.map specResolvedValue := by
  induction flags with
  | nil => rfl
  | cons f fs ih =>
      simp only [reconcileFlags, syncViperToFlags, List.map_cons] at ih ⊢
      refine congrArg₂ List.cons ?_ ih
      have h := reconcile_field f
      by_cases hc : viperIsSet f = true <;> simp [hc] at h ⊢ <;> simpa [hc] using h

/-- Claim C2: for argument specifications with at most one repeatable slot,
placed last, and at least as many tokens as non-repeatable slots,
binding followed by `All` reproduces exactly the consumed tokens in
their original order (all tokens when the trailing slot is repeatable,
the first `specs.length` tokens otherwise); in particular the spec
scenario binds `func = "upper"` and `word = ["a", "b"]`. -/
theorem argument_binding_roundtrip (specs : List Argument) (toks : List String)
    (h1 : ∀ a ∈ specs.dropLast, a.repeatable = false)
    (h2 : (specs.filter (fun a => a.repeatable = false)).length ≤ toks.length) :
    (newArguments specs toks).All =
      some (if (specs.getLast?.map Argument.repeatable).getD false then toks
            else toks.take specs.length)
    ∧ (newArguments [⟨"func", false⟩, ⟨"word", true⟩] ["upper", "a", "b"]).Get "func"
        = some "upper"
    ∧ (newArguments [⟨"func", false⟩, ⟨"word", true⟩] ["upper", "a", "b"]).GetRepeatable "word"
        = some ["a", "b"] := by
  refine ⟨?_, by decide, by decide⟩
  cases hrep : (specs.getLast?.map Argument.repeatable).getD false
  · have hall := nonrep_of_dropLast specs h1 hrep
    have h := allList_nonrep specs hall toks []
    simpa [Arguments.All, newArguments] using h
  · have hlen : specs.length ≤ toks.length + 1 := by
      have := filter_nonrep_length specs h1
      omega
    have h := allList_rep specs h1 hrep toks [] hlen
    simpa [Arguments.All, newArguments] using h

/-- Witness for C2 at the spec scenario `[func, word...]` with tokens
`["upper", "a", "b"]`. -/
theorem argument_binding_roundtrip_witness :
    (newArguments [⟨"func", false⟩, ⟨"word", true⟩] ["upper", "a", "b"]).All
      = some ["upper", "a", "b"]
    ∧ (newArguments [⟨"func", false⟩, ⟨"word", true⟩] ["upper", "a", "b"]).Get "func"
      = some "upper" := by
  have h := argument_binding_roundtrip [⟨"func", false⟩, ⟨"word", true⟩] ["upper", "a", "b"]
    (by decide) (by decide)
  refine ⟨?_, h.2.1⟩
  have h1 := h.1
  rw [show ((([⟨"func", false⟩, ⟨"word", true⟩] : List Argument).getLast?.map
      Argument.repeatable).getD false) = true from by decide] at h1
  simpa using h1

/-- Claim C3: for a command declaring `N ≥ 1` specifications none of which
is repeatable, the installed count check is `ValidateExactArgs N`, which
passes exactly when exactly `N` tokens are present and otherwise fails
with a message containing `Expected exactly N`; for a command whose last
specification is repeatable, the installed check is `ValidateMinArgs N`,
which fails with a message containing `Expected at least N` when fewer
than `N` tokens are present and passes for `N` or more. -/
theorem count_validation_exactness (specs : List Argument) (tokens : List String)
    (hne : specs ≠ []) :
    ((∀ a ∈ specs, a.repeatable = false) →
      countValidator specs = some (ValidateExactArgs specs.length)
      ∧ (ValidateExactArgs specs.length tokens = none ↔ tokens.length = specs.length)
      ∧ (tokens.length ≠ specs.length →
          ∃ m, ValidateExactArgs specs.length tokens = some m ∧
            strOccursIn ("Expected exactly " ++ toString specs.length) m = true))
    ∧ ((specs.getLast?.map Argument.repeatable).getD false = true →
      countValidator specs = some (ValidateMinArgs specs.length)
      ∧ (ValidateMinArgs specs.length tokens = none ↔ specs.length ≤ tokens.length)
      ∧ (tokens.length < specs.length →
          ∃ m, ValidateMinArgs specs.length tokens = some m ∧
            strOccursIn ("Expected at least " ++ toString specs.length) m = true)) := by
  have hpos : 0 < specs.length := List.length_pos.mpr hne
  constructor
  · intro h
    have hany : specs.any (·.repeatable) = false := by
      rw [List.any_eq_false]
      intro a ha
      simpa using h a ha
    refine ⟨by simp [countValidator, hany, hpos], ?_, ?_⟩
    · by_cases hl : tokens.length = specs.length <;> simp [ValidateExactArgs, hl]
    · intro hne'
      refine ⟨("Expected exactly " ++ toString specs.length)
          ++ (" arguments, got " ++ toString tokens.length),
        by simp [ValidateExactArgs, hne', String.append_assoc], ?_⟩
      exact strOccursIn_append_self _ _
  · intro h
    have hany : specs.any (·.repeatable) = true := any_rep_of_last specs h
    refine ⟨by simp [countValidator, hany, hpos], ?_, ?_⟩
    · by_cases hl : tokens.length < specs.length
      · simp [ValidateMinArgs, hl]
      · simp [ValidateMinArgs, hl]
        omega
    · intro hlt
      refine ⟨("Expected at least " ++ toString specs.length)
          ++ (" arguments, got " ++ toString tokens.length),
        by simp [ValidateMinArgs, hlt, String.append_assoc], ?_⟩
      exact strOccursIn_append_self _ _

/-- Witness for C3: two non-repeatable specifications against one token
fail with `Expected exactly 2`, two tokens pass; one trailing repeatable
specification behind a scalar one fails on no tokens with
`Expected at least 2` and passes on three. -/
theorem count_validation_exactness_witness :
    (ValidateExactArgs 2 ["x"] ≠ none
      ∧ ValidateExactArgs 2 ["x", "y"] = none
      ∧ ∃ m, ValidateExactArgs 2 ["x"] = some m
          ∧ strOccursIn ("Expected exactly " ++ toString 2) m = true)
    ∧ (ValidateMinArgs 2 [] ≠ none
      ∧ ValidateMinArgs 2 ["x", "y", "z"] = none
      ∧ ∃ m, ValidateMinArgs 2 [] = some m
          ∧ strOccursIn ("Expected at least " ++ toString 2) m = true) := by
  have hex := (count_validation_exactness [⟨"a1", false⟩, ⟨"a2", false⟩] ["x"]
    (by decide)).1 (by decide)
  have hex2 := (count_validation_exactness [⟨"a1", false⟩, ⟨"a2", false⟩] ["x", "y"]
    (by decide)).1 (by decide)
  have hmin := (count_validation_exactness [⟨"a1", false⟩, ⟨"a2", true⟩] []
    (by decide)).2 (by decide)
  have hmin2 := (count_validation_exactness [⟨"a1", false⟩, ⟨"a2", true⟩] ["x", "y", "z"]
    (by decide)).2 (by decide)
  refine ⟨⟨?_, ?_, ?_⟩, ?_, ?_, ?_⟩
  · intro hnone
    have := (hex.2.1).mp hnone
    simp at this
  · exact (hex2.2.1).mpr (by decide)
  · exact hex.2.2 (by decide)
  · intro hnone
    have := (hmin.2.1).mp hnone
    simp at this
  · exact (hmin2.2.1).mpr (by decide)
  · exact hmin.2.2 (by decide)

/-- Claim C6: a command with a valid name and title that declares both a
body (`RunFunc`) and sub-commands, or neither, fails `validate` with the
error indicating that exactly one of the two must be set; a command with
exactly one of them passes this check (validation proceeds to the
argument-specification checks). -/
theorem runFunc_subCommands_mutual_exclusivity (c : Command)
    (h1 : trimSpace c.name ≠ "") (h2 : strOccursIn " " c.name = false)
    (h3 : trimSpace c.title ≠ "") (h4 : strOccursIn "\n" (trimSpace c.title) = false) :
    (((c.runFunc.isNone && c.subs.isEmpty) || (c.runFunc.isSome && !c.subs.isEmpty)) = true →
      c.validate = some ("either RunFunc or SubCommands must be set for command: " ++ c.name))
    ∧ (((c.runFunc.isNone && c.subs.isEmpty) || (c.runFunc.isSome && !c.subs.isEmpty)) = false →
      c.validate = validateArgsList c.argSpecs) := by
  constructor <;> intro h <;> simp [Command.validate, h1, h2, h3, h4, h]

/-- Witness for C6: command `bothC6` (body and children) and `neitherC6` (neither)
fail with the mutual-exclusivity error; the leaf `sub2C7` passes the
check. -/
theorem runFunc_subCommands_mutual_exclusivity_witness :
    bothC6.validate = some "either RunFunc or SubCommands must be set for command: both"
    ∧ neitherC6.validate = some "either RunFunc or SubCommands must be set for command: neither"
    ∧ sub2C7.validate = validateArgsList sub2C7.argSpecs := by
  refine ⟨?_, ?_, ?_⟩
  · have h := (runFunc_subCommands_mutual_exclusivity bothC6
      (by decide) (by decide) (by decide) (by decide)).1 (by decide)
    rw [h]
    decide
  · have h := (runFunc_subCommands_mutual_exclusivity neitherC6
      (by decide) (by decide) (by decide) (by decide)).1 (by decide)
    rw [h]
    decide
  · exact (runFunc_subCommands_mutual_exclusivity sub2C7
      (by decide) (by decide) (by decide) (by decide)).2 (by decide)

/-- Claim C8: `setupFlag` fails exactly when the short form is longer than
one character (one byte, as Go's `len`), or a flag with the same name is
already registered on the same scope, or the value's kind is not among
string, bool, unsigned int, signed int, string-sequence, duration and
repeat counter; with a fresh name, a short form of at most one character
and a supported kind it registers the flag on the scope. -/
theorem setupFlag_failure_iff (name short : String) (value : FlagValue) (flags : FlagSet) :
    ((setupFlag name short value flags).isOk = false ↔
      (1 < short.utf8ByteSize ∨ flags.contains name = true ∨ value.supported = false))
    ∧ (¬ 1 < short.utf8ByteSize → flags.contains name = false → value.supported = true →
        setupFlag name short value flags = .ok (flags ++ [name])) := by
  constructor
  · by_cases hs : 1 < short.utf8ByteSize
    · simp [setupFlag, hs, Except.isOk, Except.toBool]
    · by_cases hd : name ∈ flags
      · simp [setupFlag, hs, hd, Except.isOk, Except.toBool]
      · cases value <;>
          simp [setupFlag, hs, hd, Except.isOk, Except.toBool, FlagValue.supported]
  · intro hs hd hv
    have hd' : ¬ name ∈ flags := by simpa using hd
    cases value <;>
      simp [setupFlag, hs, hd', FlagValue.supported] at hv ⊢

/-- Witness for C8: a count-kind field named `verbose` with short `v`
registers on an empty scope; the same theorem's failure direction holds
at a three-byte short form. -/
theorem setupFlag_failure_iff_witness :
    setupFlag "verbose" "v" (.countV 0) [] = .ok ["verbose"]
    ∧ (setupFlag "verbose" "ver" (.countV 0) []).isOk = false := by
  constructor
  · exact (setupFlag_failure_iff "verbose" "v" (.countV 0) []).2
      (by decide) (by decide) (by decide)
  · exact ((setupFlag_failure_iff "verbose" "ver" (.countV 0) []).1).mpr
      (Or.inl (by decide))

/-- Claim C9: on every Bound Argument Set built by `newArguments`, `Get`
panics (returns no value) exactly when the name does not match a bound
non-repeatable argument, and otherwise returns the string bound to the
first such argument; `GetRepeatable` symmetrically panics exactly when
the name does not match a bound repeatable argument and otherwise
returns its string sequence. -/
theorem arguments_accessor_contract (specs : List Argument) (toks : List String) (n : String) :
    ((newArguments specs toks).Get n = none ↔
      ∀ a ∈ (newArguments specs toks).args, ¬(a.name = n ∧ a.repeatable = false))
    ∧ ((newArguments specs toks).GetRepeatable n = none ↔
      ∀ a ∈ (newArguments specs toks).args, ¬(a.name = n ∧ a.repeatable = true))
    ∧ (∀ s, (newArguments specs toks).Get n = some s →
        ∃ a, a ∈ (newArguments specs toks).args ∧ a.name = n ∧ a.repeatable = false ∧
          a.value = ArgValue.scalar s)
    ∧ (∀ l, (newArguments specs toks).GetRepeatable n = some l →
        ∃ a, a ∈ (newArguments specs toks).args ∧ a.name = n ∧ a.repeatable = true ∧
          a.value = ArgValue.multi l) := by
  have hinv := newArgumentsList_value_inv specs toks
  refine ⟨?_, ?_, ?_, ?_⟩
  · exact getList_none_iff n (newArgumentsList specs toks)
      (fun a ha => (hinv a ha).1)
  · exact getRepeatableList_none_iff n (newArgumentsList specs toks)
      (fun a ha => (hinv a ha).2)
  · exact fun s hs => getList_some n (newArgumentsList specs toks) s hs
  · exact fun l hl => getRepeatableList_some n (newArgumentsList specs toks) l hl

/-- Witness for C9 at the spec scenario: `Get` on the repeatable slot
`word` and on the unknown name `nope` panics, `Get "func"` returns the
bound value. -/
theorem arguments_accessor_contract_witness :
    (newArguments [⟨"func", false⟩, ⟨"word", true⟩] ["upper", "a", "b"]).Get "word" = none
    ∧ (newArguments [⟨"func", false⟩, ⟨"word", true⟩] ["upper", "a", "b"]).GetRepeatable "func"
        = none
    ∧ (newArguments [⟨"func", false⟩, ⟨"word", true⟩] ["upper", "a", "b"]).Get "nope" = none := by
  refine ⟨?_, ?_, ?_⟩
  · exact (arguments_accessor_contract [⟨"func", false⟩, ⟨"word", true⟩]
      ["upper", "a", "b"] "word").1.mpr (by decide)
  · exact (arguments_accessor_contract [⟨"func", false⟩, ⟨"word", true⟩]
      ["upper", "a", "b"] "func").2.1.mpr (by decide)
  · exact (arguments_accessor_contract [⟨"func", false⟩, ⟨"word", true⟩]
      ["upper", "a", "b"] "nope").1.mpr (by decide)

/-- Claim C10: with no repeatable specification, `newArguments` binds
exactly `min specs.length toks.length` entries — tokens beyond the
number of specifications are silently discarded — so `Len` never exceeds
the number of specifications and `All` returns only the first
`specs.length` tokens, never the excess. -/
theorem newArguments_discards_excess (specs : List Argument) (toks : List String)
    (h : ∀ a ∈ specs, a.repeatable = false) :
    (newArguments specs toks).Len = min specs.length toks.length
    ∧ (newArguments specs toks).Len ≤ specs.length
    ∧ (newArguments specs toks).All = some (toks.take specs.length) := by
  refine ⟨newArgumentsList_length specs toks, ?_, ?_⟩
  · have hl := newArgumentsList_length specs toks
    have : (newArguments specs toks).Len = min specs.length toks.length := hl
    omega
  · have hall := allList_nonrep specs h toks []
    simpa [Arguments.All, newArguments] using hall

/-- Witness for C10: two scalar specifications against three tokens bind
two entries and `All` drops the third token. -/
theorem newArguments_discards_excess_witness :
    (newArguments [⟨"a1", false⟩, ⟨"a2", false⟩] ["v1", "v2", "v3"]).Len = 2
    ∧ (newArguments [⟨"a1", false⟩, ⟨"a2", false⟩] ["v1", "v2", "v3"]).All
        = some ["v1", "v2"] := by
  have h := newArguments_discards_excess [⟨"a1", false⟩, ⟨"a2", false⟩]
    ["v1", "v2", "v3"] (by decide)
  exact ⟨h.1, h.2.2⟩

/-- Claim C4: when an invocation resolves to a deprecated command whose
marker requests automatic execution of a non-empty replacement token
list `R`, and `R` itself does not resolve to another deprecation signal,
then running the application on the original argv yields the same
outcome (returned error and executed-command path) as running it
directly on `R`, and that outcome is exactly the dispatch of `R` — so
the executed-command query afterwards reflects the replacement command's
path, not the deprecated command's. -/
theorem deprecation_redirect_equivalence (app : App) (args R path0 : List String)
    (h1 : dispatch app.name app.commands args
        = (path0, some (.deprecation ⟨R, true⟩)))
    (h2 : R.isEmpty = false)
    (h3 : ∀ d, (dispatch app.name app.commands R).2 ≠ some (RunError.deprecation d)) :
    ∀ fuel, app.runGo (fuel + 1) args = app.runGo (fuel + 1) R ∧
      app.runGo (fuel + 1) R = dispatch app.name app.commands R := by
  have haux : ∀ fuel, app.runGo fuel R = dispatch app.name app.commands R := by
    intro fuel
    cases fuel with
    | zero => rfl
    | succ k =>
        rcases hd : dispatch app.name app.commands R with ⟨pR, eR⟩
        cases eR with
        | none => simp [App.runGo, hd]
        | some e =>
            cases e with
            | deprecation d =>
                have hcontra := h3 d
                rw [hd] at hcontra
                simp at hcontra
            | other m => simp [App.runGo, hd]
  intro fuel
  have hstep : app.runGo (fuel + 1) args = app.runGo fuel R := by
    simp [App.runGo, h1, h2]
  rw [hstep, haux fuel, haux (fuel + 1)]
  exact ⟨rfl, rfl⟩

/-- Witness for C4: in `appC4`, the deprecated `v1` redirects to
`v2 arg` with automatic execution; running `["v1"]` equals running
`["v2", "arg"]`, and the executed path is that of `v2`. -/
theorem deprecation_redirect_equivalence_witness :
    appC4.runGo 1 ["v1"] = appC4.runGo 1 ["v2", "arg"]
    ∧ appC4.runGo 1 ["v2", "arg"] = dispatch appC4.name appC4.commands ["v2", "arg"]
    ∧ ExecutedCommand (appC4.runGo 1 ["v1"]).1 = ["app", "v2"] := by
  have h3 : ∀ d, (dispatch appC4.name appC4.commands ["v2", "arg"]).2
      ≠ some (RunError.deprecation d) := by
    intro d hd
    rw [show dispatch appC4.name appC4.commands ["v2", "arg"] = (["app", "v2"], none)
      from by decide] at hd
    simp at hd
  have h := deprecation_redirect_equivalence appC4 ["v1"] ["v2", "arg"] ["app", "v1"]
    (by decide) (by decide) h3 0
  refine ⟨h.1, h.2, ?_⟩
  rw [h.1, h.2]
  decide

/-- Claim C5: `AddCommand` rejects two sibling top-level commands passed in
the same call that share a name, or share an alias, or where one's name
equals the other's alias, naming the duplicated token; `Command.init`
rejects duplicates among a node's direct children, naming the token and
the owning parent path. However, two top-level commands with the same
name registered through two separate `AddCommand` calls are accepted —
the duplicate scan covers only the commands passed to the current call —
contradicting the claim (and the repository's own
`TestDuplicateCommandNamesAndAliases` test for multiple calls). -/
theorem duplicate_detection_evaluated :
    (AddCommand "test" 9 [] [createA, createB]).2
        = some "the application contains duplicate commands and/or aliases: \"create\""
    ∧ (AddCommand "test" 9 [] [aliasedA, aliasedB]).2
        = some "the application contains duplicate commands and/or aliases: \"c\""
    ∧ (AddCommand "test" 9 [] [namedC, aliasedB]).2
        = some "the application contains duplicate commands and/or aliases: \"c\""
    ∧ Command.initGo 9 "test" parentC5
        = some "command \"test create\" contains duplicate commands and/or aliases: \"c\""
    ∧ (AddCommand "test" 9 [] [createA]).2 = none
    ∧ (AddCommand "test" 9 (AddCommand "test" 9 [] [createA]).1 [createB]).2 = none := by
  refine ⟨by decide, by decide, by decide, by decide, by decide, by decide⟩

set_option maxRecDepth 8192 in
/-- Claim C7: in the tree `app → cmd → sub1 → sub2`, running
`["cmd", "sub1", "bogus"]` returns an error whose message contains
`unknown command "bogus" for "app cmd sub1"`, and the executed-command
query afterwards returns `["app", "cmd", "sub1"]` — the path truncated
at the last successfully matched node. -/
theorem unknown_subcommand_scenario :
    (∃ m, (appC7.runGo 1 ["cmd", "sub1", "bogus"]).2 = some (.other m) ∧
      strOccursIn "unknown command \"bogus\" for \"app cmd sub1\"" m = true)
    ∧ ExecutedCommand (appC7.runGo 1 ["cmd", "sub1", "bogus"]).1 = ["app", "cmd", "sub1"] := by
  refine ⟨⟨"unknown command \"bogus\" for \"app cmd sub1\""
    ++ "\n\nUsage:\n  app cmd sub1 <command> [flags]"
    ++ "\n\nAvailable commands:\n  sub2"
    ++ "\n\nUse \"app cmd sub1 -h\" for more information.", by decide, by decide⟩, by decide⟩

end Naistrix
